import Mathlib

/- Verification of the Hono base application core (src/src/hono-base.ts):
   the data model, the path builder, route registration, application
   composition (route / basePath / mount) and dispatch.  Modules that
   hono-base.ts imports but that are not under src/ (compose.ts, context.ts,
   http-exception.ts, request.ts, router.ts, utils/url.ts) are modelled from
   the specification; each such definition says so in its doc comment. -/

namespace HonoBase

/-- An HTTP response as observed by this core: status, headers and an
optional body (`none` models an empty body). -/
structure Response where
  status : Nat
  headers : List (String × String)
  body : Option String
deriving DecidableEq, Repr

/-- Modelled from the spec: the per-dispatch request data (request.ts is not
under src/): the URL pathname and the query-string part of the URL (empty,
or starting with a question mark). -/
structure Req where
  path : String
  query : String
deriving DecidableEq, Repr

/-- Modelled from the spec: the per-dispatch mutable Context (context.ts is
not under src/).  It carries the request path and query string, the
environment bindings and the optional execution context (both opaque, as
numbers), and the mutable response slot.  Per the spec invariant a context
is finalized exactly when its response slot is set. -/
structure Ctx where
  reqPath : String
  reqQuery : String
  env : Nat
  ectx : Option Nat
  res : Option Response
deriving DecidableEq, Repr

/-- Modelled from the spec: a context is finalized when its response is set. -/
def Ctx.finalized (c : Ctx) : Bool := c.res.isSome

/-- Modelled from the spec: assigning the response slot finalizes the
context. -/
def Ctx.setRes (c : Ctx) (r : Response) : Ctx := { c with res := some r }

/-- Modelled from the spec: Context.text, a plain-text response builder
(context.ts is not under src/). -/
def textResponse (body : String) (status : Nat) : Response :=
  ⟨status, [("content-type", "text/plain; charset=UTF-8")], some body⟩

/-- Modelled from the spec: an Error-kind thrown value.  The recognized
application-level exception (HTTPException, http-exception.ts is not under
src/) carries a pre-built response; any other Error carries a message. -/
inductive Err where
  | httpException (resp : Response)
  | plain (msg : String)
deriving DecidableEq, Repr

/-- A value thrown by handler code: an Error-kind value, or a non-Error value
(modelled opaquely as a number). -/
inductive ThrownVal where
  | error (e : Err)
  | nonError (v : Nat)
deriving DecidableEq, Repr

/-! ## Path builder (utils/url.ts is not under src/; modelled from the spec) -/

/-- Modelled from the spec: normalize a path to a leading slash. -/
def normSlash (l : List Char) : List Char :=
  if l.head? = some '/' then l else '/' :: l

/-- Modelled from the spec: remove a single trailing slash, if present. -/
def stripSlash (l : List Char) : List Char :=
  if l.getLast? = some '/' then l.dropLast else l

/-- Modelled from the spec: the Path Builder merge on character lists.  The
seam between base and sub never produces a double slash, a bare trailing
slash on the base is preserved when the sub path is the root, and the
result is normalized to a leading slash. -/
def mergeChars (base sub : List Char) : List Char :=
  if normSlash sub = ['/'] then
    (if (normSlash base).getLast? = some '/' then (normSlash base).dropLast ++ ['/']
     else normSlash base)
  else stripSlash (normSlash base) ++ normSlash sub

/-- Modelled from the spec: mergePath (utils/url.ts is not under src/). -/
def mergePath (base sub : String) : String := ⟨mergeChars base.data sub.data⟩

/-- Uppercase a string character by character (method normalization). -/
def strUpper (s : String) : String := ⟨s.data.map Char.toUpper⟩

/-- Drop the first n characters of a string (the path-rewriting slice used by
mount). -/
def strDrop (s : String) (n : Nat) : String := ⟨s.data.drop n⟩

/-- Character length of a string. -/
def strLen (s : String) : Nat := s.data.length

/-! ## Handlers and the composition engine -/

/-- A thrown value paired with the context state at the moment of the throw. -/
abbrev ThrownC := ThrownVal × Ctx

/-- The continuation a handler receives: run the rest of the chain on the
current context. -/
abbrev NextF := Ctx → Except ThrownC Ctx

/-- A semantic handler: receives the context and the next-continuation, may
mutate the context, return an optional response, or throw. -/
abbrev Handler := Ctx → NextF → Except ThrownC (Option Response × Ctx)

/-- An error handler, per the external contract: Error and context to
response. -/
abbrev ErrHandler := Err → Ctx → Response

/-- A not-found handler, per the external contract: context to response. -/
abbrev NFHandler := Ctx → Response

/-- The built-in not-found handler (hono-base.ts lines 37-39): plain-text
404. -/
def defaultNotFound : NFHandler := fun _ => textResponse "404 Not Found" 404

/-- The built-in error handler (hono-base.ts lines 41-47): an HTTPException's
pre-built response is returned unchanged; any other Error yields a
plain-text 500. -/
def defaultErrorHandler : ErrHandler := fun e _ =>
  match e with
  | .httpException r => r
  | .plain _ => textResponse "Internal Server Error" 500

/-- The errorHandler field of an application: either still the built-in
default (which route() detects by reference equality) or a custom handler
installed via onError. -/
inductive ErrorHandlerSlot where
  | dflt
  | custom (f : ErrHandler)

/-- Run an error-handler slot. -/
def ErrorHandlerSlot.run : ErrorHandlerSlot → ErrHandler
  | .dflt => defaultErrorHandler
  | .custom f => f

/-- The notFoundHandler field of an application. -/
inductive NotFoundSlot where
  | dflt
  | custom (f : NFHandler)

/-- Run a not-found-handler slot. -/
def NotFoundSlot.run : NotFoundSlot → NFHandler
  | .dflt => defaultNotFound
  | .custom f => f

/-- Modelled from the spec: one step of the Composition Engine (compose.ts is
not under src/).  Run the handler with the given continuation; a returned
response is assigned only to a not-yet-finalized context; a thrown Error is
intercepted here and the error handler's response is assigned, finalizing
the context; a thrown non-Error value is rethrown. -/
def runStep (errH : ErrHandler) (h : Handler) (next : NextF) (c : Ctx) :
    Except ThrownC Ctx :=
  match h c next with
  | .ok (some r, c') => .ok (if c'.res.isSome then c' else c'.setRes r)
  | .ok (none, c') => .ok c'
  | .error (.error e, c') => .ok (c'.setRes (errH e c'))
  | .error (.nonError v, c') => .error (.nonError v, c')

/-- Modelled from the spec: the Composition Engine (compose.ts is not under
src/).  Handlers run in order, each receiving a continuation that runs the
remainder of the chain.  Past the last handler, an optional final handler
runs with a no-op continuation (the form route()-grafting uses); otherwise
the not-found handler's response is assigned if the context is not yet
finalized. -/
def compose (errH : ErrHandler) (onNF : Option NFHandler) (fin : Option Handler) :
    List Handler → Ctx → Except ThrownC Ctx
  | [], c =>
    match fin with
    | some h => runStep errH h (fun c2 => .ok c2) c
    | none =>
      match onNF with
      | some nfh => if c.res.isSome then .ok c else .ok (c.setRes (nfh c))
      | none => .ok c
  | h :: rest, c => runStep errH h (fun c2 => compose errH onNF fin rest c2) c

/-- A registered handler value: either a plain handler, or — after grafting a
sub-application that has a custom error handler — a composed wrapper that
keeps a back-reference to the original handler (the COMPOSED_HANDLER
marker, hono-base.ts line 35). -/
inductive H where
  | base (f : Handler)
  | composed (orig : H) (f : Handler)

/-- The callable semantics of a registered handler value. -/
def H.sem : H → Handler
  | .base f => f
  | .composed _ f => f

/-- The graft wrapper built by route() for a sub-application with a custom
error handler (hono-base.ts lines 222-223): run the original handler as the
final handler of an empty composition whose error handler is the
sub-application's, and return the resulting context's response. -/
def wrapSem (errH : ErrHandler) (orig : Handler) : Handler :=
  fun c next =>
    match compose errH none (some (fun c2 _ => orig c2 next)) [] c with
    | .ok c' => .ok (c'.res, c')
    | .error t => .error t

/-! ## Application state, constructor and registration -/

/-- The pluggable path extractor: request and environment bindings to path. -/
abbrev GetPathF := Req → Nat → String

/-- Modelled from the spec: the default strict path extractor (utils/url.ts is
not under src/) returns the URL pathname unchanged, preserving a trailing
slash. -/
def getPathDefault : GetPathF := fun req _ => req.path

/-- Modelled from the spec: the non-strict path extractor (utils/url.ts is not
under src/) collapses a trailing slash on any path longer than one
character. -/
def getPathNoStrict : GetPathF := fun req env =>
  let p := getPathDefault req env
  if p.data.length > 1 ∧ p.data.getLast? = some '/' then ⟨p.data.dropLast⟩ else p

/-- Construction-time options (hono-base.ts lines 51-92), restricted to the
fields this model observes. -/
structure HonoOptions where
  strict : Option Bool := none
  getPath : Option GetPathF := none

/-- The path extractor chosen by the constructor (hono-base.ts lines
166-169): strict defaults to true; when strict, a user-supplied getPath
wins over the strict default; when not strict, getPathNoStrict is used
unconditionally. -/
def mkGetPath (o : HonoOptions) : GetPathF :=
  if o.strict.getD true then o.getPath.getD getPathDefault else getPathNoStrict

/-- The per-instance fields of a Hono application: the private base path, the
transient path stash used by the chained registration methods, the two
handler slots, and the path extractor.  The route table and the router live
in a separate World value, because the clones produced by basePath() and
route() share them by reference. -/
structure AppRef where
  _basePath : String
  pathStash : String
  eh : ErrorHandlerSlot
  nfh : NotFoundSlot
  getPathF : GetPathF

/-- The constructor (hono-base.ts lines 117-170): base path "/", path stash
"/", default handler slots, path extractor chosen from the options. -/
def mkAppRef (o : HonoOptions) : AppRef :=
  ⟨"/", "/", .dflt, .dflt, mkGetPath o⟩

/-- clone() (hono-base.ts lines 172-179): a fresh instance constructed from
the same router and path extractor.  The routes list and router are shared
by reference (the World is not copied), and the handler slots come back as
the class-field defaults. -/
def clone (a : AppRef) : AppRef := mkAppRef ⟨none, some a.getPathF⟩

/-- basePath() (hono-base.ts lines 245-249): a clone whose base path is the
merge of the current base path and the given path. -/
def basePath (a : AppRef) (p : String) : AppRef :=
  { clone a with _basePath := mergePath a._basePath p }

/-- A route record (RouterRoute): method, full path and handler. -/
structure RouterRoute where
  method : String
  path : String
  handler : H

/-- One router.add call as forwarded by addRoute: method, full path, and the
payload pair of handler and route record. -/
structure RouterAdd where
  method : String
  path : String
  payload : H × RouterRoute

/-- The shared mutable registration state: the routes table and the log of
router.add calls (the Router Contract is external to src/, so its
registration side is modelled as an append log). -/
structure World where
  routes : List RouterRoute
  routerLog : List RouterAdd

/-- addRoute (hono-base.ts lines 350-356): uppercase the method, merge the
base path onto the path, forward (method, fullPath, [handler, record]) to
the router, and push the record onto the routes table. -/
def addRoute (a : AppRef) (w : World) (method path : String) (h : H) : World :=
  let m := strUpper method
  let p := mergePath a._basePath path
  let r : RouterRoute := ⟨m, p, h⟩
  ⟨w.routes ++ [r], w.routerLog ++ [⟨m, p, (h, r)⟩]⟩

/-- Modelled from the spec: the catch-all method name from the router module
(router.ts is not under src/). -/
def METHOD_NAME_ALL : String := "ALL"

/-- The per-route handler transform performed by route() (hono-base.ts lines
217-228): while the sub-application still has the default error handler the
handler is copied unchanged; with a custom error handler it is wrapped, and
the wrapper keeps the original handler as its back-reference. -/
def graftHandler (subEh : ErrorHandlerSlot) (h : H) : H :=
  match subEh with
  | .dflt => h
  | .custom f => H.composed h (wrapSem f h.sem)

/-- route(path, app) (hono-base.ts lines 202-230): build the basePath
derivative and re-register every sub-route of the grafted application
through it, transforming each handler per the sub-application's error
handler slot. -/
def route (a : AppRef) (w : World) (p : String) (subEh : ErrorHandlerSlot)
    (subRoutes : List RouterRoute) : World :=
  let subApp := basePath a p
  subRoutes.foldl
    (fun w' r => addRoute subApp w' r.method r.path (graftHandler subEh r.handler)) w

/-- The value an optionHandler returns to mount(): an array of options or a
single value, normalized to an array before the foreign call. -/
inductive MountOpts where
  | arr (l : List (Option Nat))
  | single (v : Option Nat)

/-- Normalize a MountOpts to the options array. -/
def MountOpts.toList : MountOpts → List (Option Nat)
  | .arr l => l
  | .single v => [v]

/-- A foreign application handler given to mount(): receives the rewritten
path-with-query and the options array and returns a response or nothing. -/
abbrev ForeignHandler := String → List (Option Nat) → Option Response

/-- The middleware registered by mount() (hono-base.ts lines 323-345): strip
the merged prefix from the request path (falling back to "/" when the
remainder is empty), re-append the original query string, and call the
foreign handler with the mapped options (by default the environment
bindings and the execution context, whose retrieval failure is swallowed).
A truthy foreign result becomes the response; on a falsy result control
falls through to next(). -/
def mountHandlerSem (bp mountPath : String) (optH : Option (Ctx → MountOpts))
    (foreign : ForeignHandler) : Handler :=
  fun c next =>
    let mergedPath := mergePath bp mountPath
    let stripLen := if mergedPath = "/" then 0 else strLen mergedPath
    let opts := match optH with
      | some f => (f c).toList
      | none => [some c.env, c.ectx]
    let stripped := strDrop c.reqPath stripLen
    let newPath := (if stripped = "" then "/" else stripped) ++ c.reqQuery
    match foreign newPath opts with
    | some r => .ok (some r, c)
    | none => (next c).map fun c2 => (none, c2)

/-- mount(path, applicationHandler, optionHandler) (hono-base.ts lines
315-348): register the mount middleware as a catch-all for every method
under the mount path followed by a wildcard. -/
def mount (a : AppRef) (w : World) (p : String) (optH : Option (Ctx → MountOpts))
    (foreign : ForeignHandler) : World :=
  addRoute a w METHOD_NAME_ALL (mergePath p "*") (.base (mountHandlerSem a._basePath p optH foreign))

/-! ## Dispatch -/

/-- handleError (hono-base.ts lines 362-367): an Error goes to the configured
error handler; any other thrown value is rethrown to the caller. -/
def handleError (a : AppRef) (t : ThrownVal) (c : Ctx) : Except ThrownVal Response :=
  match t with
  | .error e => .ok (a.eh.run e c)
  | .nonError v => .error (.nonError v)

/-- The trivial next of the single-handler fast path (hono-base.ts lines
394-396): run the not-found handler and assign its response. -/
def fastNext (a : AppRef) : NextF := fun c => .ok (c.setRes (a.nfh.run c))

/-- The terminal continuation a lone handler sees on the composed path: the
empty remainder of the chain. -/
def termNext (a : AppRef) : NextF := fun c =>
  compose a.eh.run (some a.nfh.run) none [] c

/-- The single-handler fast path of dispatch (hono-base.ts lines 390-409):
invoke the handler directly with the trivial next; a thrown value goes to
handleError; a returned response is the result; otherwise the finalized
response or, failing that, the not-found handler's response is returned. -/
def fastDispatch (a : AppRef) (h : H) (c : Ctx) : Except ThrownVal Response :=
  match h.sem c (fastNext a) with
  | .error (t, c') => handleError a t c'
  | .ok (some r, _) => .ok r
  | .ok (none, c') =>
    match c'.res with
    | some r => .ok r
    | none => .ok (a.nfh.run c')

/-- The message of the Error thrown when the composed chain leaves the
context unfinalized (hono-base.ts lines 417-419). -/
def unfinalizedMsg : String :=
  "Context is not finalized. You may forget returning Response object or `await next()`"

/-- The composed-chain path of dispatch (hono-base.ts lines 411-426): run the
composed chain; a finalized context's response is returned; an unfinalized
context raises the unfinalized Error inside the same try, so it and every
value rethrown by the chain are routed through handleError. -/
def composedDispatch (a : AppRef) (hs : List H) (c : Ctx) : Except ThrownVal Response :=
  match compose a.eh.run (some a.nfh.run) none (hs.map H.sem) c with
  | .ok c' =>
    match c'.res with
    | some r => .ok r
    | none => handleError a (.error (.plain unfinalizedMsg)) c'
  | .error (t, c') => handleError a t c'

/-- dispatch without the HEAD special case (hono-base.ts lines 381-426):
extract the path, match, build a fresh context, then take the fast path for
exactly one matched handler and the composed path otherwise.  The router's
match result is abstract (router.ts is not under src/), so the matcher is a
parameter. -/
def dispatchCore (a : AppRef) (matcher : String → String → List H) (req : Req)
    (env : Nat) (ectx : Option Nat) (method : String) : Except ThrownVal Response :=
  let path := a.getPathF req env
  let c : Ctx := ⟨path, req.query, env, ectx, none⟩
  match matcher method path with
  | [h] => fastDispatch a h c
  | hs => composedDispatch a hs c

/-- dispatch (hono-base.ts lines 369-427): a HEAD request re-dispatches the
same request, execution context and environment as GET and rebuilds the
response with an empty body; any other method dispatches directly. -/
def dispatch (a : AppRef) (matcher : String → String → List H) (req : Req)
    (env : Nat) (ectx : Option Nat) (method : String) : Except ThrownVal Response :=
  if method = "HEAD" then
    (dispatchCore a matcher req env ectx "GET").map fun r => ⟨r.status, r.headers, none⟩
  else
    dispatchCore a matcher req env ectx method

/-! ## The public operations, for the append-only route-table claim -/

/-- One public operation of the application object, with its arguments.
Handler-or-string unions model the overloaded JavaScript signatures. -/
inductive AppOp where
  | addRouteOp (m p : String) (h : H)
  | methodOp (m : String) (arg1 : Sum String H) (rest : List (Sum String H))
  | onOp (marg : Sum String (List String)) (parg : Sum String (List String)) (hs : List H)
  | useOp (arg1 : Sum String H) (rest : List H)
  | routeOp (p : String) (subEh : ErrorHandlerSlot) (subRoutes : List RouterRoute)
  | basePathOp (p : String)
  | onErrorOp (f : ErrHandler)
  | notFoundOp (f : NFHandler)
  | mountOp (p : String) (optH : Option (Ctx → MountOpts)) (foreign : ForeignHandler)
  | fetchOp

/-- Flatten a string-or-array argument, as [x].flat() does. -/
def flatArg (x : Sum String (List String)) : List String :=
  match x with
  | .inl s => [s]
  | .inr l => l

/-- The registration loops of on() (hono-base.ts lines 137-150): for each
path, stash it, then register every handler for every method. -/
def onRegister (a : AppRef) (w : World) (ms ps : List String) (hs : List H) :
    AppRef × World :=
  ps.foldl
    (fun st p =>
      let a2 := { st.1 with pathStash := p }
      (a2, ms.foldl
        (fun w' m => hs.foldl (fun w2 h => addRoute a2 w2 (strUpper m) a2.pathStash h) w')
        st.2))
    (a, w)

/-- The state transition of each public operation (hono-base.ts lines
117-164, 202-230, 245-249, 267-290, 315-348, 350-356, 440-446).  Dispatch
(fetchOp) reads the router but never writes the table. -/
def applyOp (a : AppRef) (w : World) : AppOp → AppRef × World
  | .addRouteOp m p h => (a, addRoute a w m p h)
  | .methodOp m arg1 rest =>
    let s := match arg1 with
      | .inl p => ({ a with pathStash := p }, w)
      | .inr h => (a, addRoute a w m a.pathStash h)
    (s.1, rest.foldl
      (fun w' x =>
        match x with
        | .inl _ => w'
        | .inr h => addRoute s.1 w' m s.1.pathStash h)
      s.2)
  | .onOp marg parg hs =>
    match marg with
    | .inl m0 =>
      if m0 = "" then (a, w) else onRegister a w [m0] (flatArg parg) hs
    | .inr ms => onRegister a w ms (flatArg parg) hs
  | .useOp arg1 rest =>
    let s := match arg1 with
      | .inl p => ({ a with pathStash := p }, rest)
      | .inr h => ({ a with pathStash := "*" }, h :: rest)
    (s.1, s.2.foldl (fun w' h => addRoute s.1 w' METHOD_NAME_ALL s.1.pathStash h) w)
  | .routeOp p subEh subRoutes => (a, route a w p subEh subRoutes)
  | .basePathOp p => (basePath a p, w)
  | .onErrorOp f => ({ a with eh := .custom f }, w)
  | .notFoundOp f => ({ a with nfh := .custom f }, w)
  | .mountOp p optH foreign => (a, mount a w p optH foreign)
  | .fetchOp => (a, w)

/-! ## Decidable equality of outcomes -/

/-- Decidable equality of Except values, for evaluating concrete dispatch
outcomes. -/
instance instDecEqExcept {ε α : Type} [DecidableEq ε] [DecidableEq α] :
    DecidableEq (Except ε α) := fun a b =>
  match a, b with
  | .ok x, .ok y =>
    if hxy : x = y then .isTrue (by rw [hxy])
    else .isFalse (by intro hc; injection hc; exact hxy (by assumption))
  | .error x, .error y =>
    if hxy : x = y then .isTrue (by rw [hxy])
    else .isFalse (by intro hc; injection hc; exact hxy (by assumption))
  | .ok _, .error _ => .isFalse (by intro hc; exact Except.noConfusion hc)
  | .error _, .ok _ => .isFalse (by intro hc; exact Except.noConfusion hc)

/-! ## Concrete fixtures used by witnesses and counterexamples -/

/-- An application fresh from the constructor with no options. -/
def appDflt : AppRef := mkAppRef ⟨none, none⟩

/-- A fresh context for a request to the root path. -/
def c0 : Ctx := ⟨"/", "", 0, none, none⟩

/-- A handler that succeeds without producing a response, without touching
the context, and without calling next. -/
def hNone : H := .base fun c _ => .ok (none, c)

/-- A handler that returns a 200 text response. -/
def hHi : H := .base fun c _ => .ok (some (textResponse "hi" 200), c)

/-- The built-in 404 response. -/
def resp404 : Response := textResponse "404 Not Found" 404

/-- The built-in 500 response. -/
def resp500 : Response := textResponse "Internal Server Error" 500

/-- A pre-built 401 response carried by an HTTPException. -/
def resp401 : Response := ⟨401, [], some "Unauthorized"⟩

/-- The fixed response of the custom error handler below. -/
def resp418 : Response := ⟨418, [], some "teapot"⟩

/-- A custom error handler returning a constant 418 response. -/
def custom418 : ErrHandler := fun _ _ => resp418

/-- The default application with the custom 418 error handler installed via
onError. -/
def appCustom : AppRef := { appDflt with eh := .custom custom418 }

/-! ## Path builder lemmas -/

/-- normSlash always yields a slash-headed path. -/
theorem normSlash_head (l : List Char) : (normSlash l).head? = some '/' := by
  unfold normSlash
  split
  · assumption
  · rfl

/-- normSlash is the identity on slash-headed paths. -/
theorem normSlash_of_head {l : List Char} (h : l.head? = some '/') :
    normSlash l = l := by
  unfold normSlash
  rw [if_pos h]

/-- normSlash is idempotent. -/
theorem normSlash_idem (l : List Char) : normSlash (normSlash l) = normSlash l :=
  normSlash_of_head (normSlash_head l)

/-- normSlash never yields the empty path. -/
theorem normSlash_ne_nil (l : List Char) : normSlash l ≠ [] := by
  intro h
  have := normSlash_head l
  rw [h] at this
  exact Option.noConfusion this

/-- A path whose last character is a slash is its dropLast plus the slash. -/
theorem dropLast_append_last {l : List Char} (h : l.getLast? = some '/') :
    l.dropLast ++ ['/'] = l :=
  List.dropLast_append_getLast? '/' (by rw [h]; rfl)

/-- stripSlash distributes over append when the right part is nonempty. -/
theorem stripSlash_append (u v : List Char) (hv : v ≠ []) :
    stripSlash (u ++ v) = u ++ stripSlash v := by
  unfold stripSlash
  rw [List.getLast?_append_of_ne_nil u hv]
  split
  · rcases v with _ | ⟨x, t⟩
    · exact absurd rfl hv
    · rw [List.dropLast_append_cons]
  · rfl

/-- stripSlash of a slash-headed path is empty or slash-headed. -/
theorem stripSlash_head {l : List Char} (h : l.head? = some '/') :
    stripSlash l = [] ∨ (stripSlash l).head? = some '/' := by
  rcases l with _ | ⟨x, t⟩
  · exact Or.inl rfl
  · have hx : x = '/' := by simpa using h
    subst hx
    unfold stripSlash
    split
    · rcases t with _ | ⟨y, ys⟩
      · exact Or.inl rfl
      · right
        rw [List.dropLast_cons₂]
        rfl
    · exact Or.inr rfl

/-- Merging the root path as the sub path leaves a slash-headed base
unchanged. -/
theorem mergeChars_sub_root {b s : List Char} (hb : b.head? = some '/')
    (hs : normSlash s = ['/']) : mergeChars b s = b := by
  unfold mergeChars
  rw [if_pos hs, normSlash_of_head hb]
  split
  · exact dropLast_append_last (by assumption)
  · rfl

/-- Merging a non-root sub path onto a slash-headed base strips the base's
trailing slash and appends the normalized sub path. -/
theorem mergeChars_sub_ne {b s : List Char} (hb : b.head? = some '/')
    (hs : normSlash s ≠ ['/']) : mergeChars b s = stripSlash b ++ normSlash s := by
  unfold mergeChars
  rw [if_neg hs, normSlash_of_head hb]

/-- mergeChars ignores pre-normalization of its base. -/
theorem mergeChars_norm_base (b s : List Char) :
    mergeChars (normSlash b) s = mergeChars b s := by
  unfold mergeChars
  rw [normSlash_idem]

/-- mergeChars ignores pre-normalization of its sub path. -/
theorem mergeChars_norm_sub (b s : List Char) :
    mergeChars b (normSlash s) = mergeChars b s := by
  unfold mergeChars
  rw [normSlash_idem]

/-- The merge of a slash-headed base is slash-headed. -/
theorem mergeChars_head {b : List Char} (s : List Char) (hb : b.head? = some '/') :
    (mergeChars b s).head? = some '/' := by
  by_cases hs : normSlash s = ['/']
  · rw [mergeChars_sub_root hb hs]; exact hb
  · rw [mergeChars_sub_ne hb hs]
    rcases stripSlash_head hb with h0 | h0
    · rw [h0, List.nil_append]; exact normSlash_head s
    · rcases hstrip : stripSlash b with _ | ⟨x, t⟩
      · rw [hstrip] at h0; exact Option.noConfusion h0
      · rw [hstrip] at h0
        rw [List.cons_append]
        exact h0

/-- The merge of a slash-headed base with a non-root sub path is not the bare
root. -/
theorem mergeChars_ne_root {b s : List Char} (hb : b.head? = some '/')
    (hs : normSlash s ≠ ['/']) : mergeChars b s ≠ ['/'] := by
  rw [mergeChars_sub_ne hb hs]
  rcases hstrip : stripSlash b with _ | ⟨x, t⟩
  · rw [List.nil_append]; exact hs
  · intro hcontra
    rw [List.cons_append] at hcontra
    have ht : t ++ normSlash s = [] := (List.cons_eq_cons.mp hcontra).2
    exact normSlash_ne_nil s (List.append_eq_nil.mp ht).2

/-- Associativity of the path merge for a slash-headed base: merging the base
with p and then q equals merging the base with the merge of p and q. -/
theorem mergeChars_assoc (a b c : List Char) (ha : a.head? = some '/') :
    mergeChars (mergeChars a b) c = mergeChars a (mergeChars b c) := by
  by_cases hc1 : normSlash c = ['/']
  · rw [mergeChars_sub_root (mergeChars_head b ha) hc1]
    rw [← mergeChars_norm_base b c, mergeChars_sub_root (normSlash_head b) hc1]
    rw [mergeChars_norm_sub]
  · by_cases hb1 : normSlash b = ['/']
    · rw [mergeChars_sub_root ha hb1]
      rw [← mergeChars_norm_base b c, mergeChars_sub_ne (normSlash_head b) hc1, hb1]
      have hstrip : stripSlash ['/'] = [] := rfl
      rw [hstrip, List.nil_append, mergeChars_norm_sub]
    · have hX : mergeChars b c = stripSlash (normSlash b) ++ normSlash c := by
        rw [← mergeChars_norm_base b c, mergeChars_sub_ne (normSlash_head b) hc1]
      have hXhead : (mergeChars b c).head? = some '/' := by
        rw [← mergeChars_norm_base b c]
        exact mergeChars_head c (normSlash_head b)
      have hXne : mergeChars b c ≠ ['/'] := by
        rw [← mergeChars_norm_base b c]
        exact mergeChars_ne_root (normSlash_head b) hc1
      have hXnorm : normSlash (mergeChars b c) = mergeChars b c :=
        normSlash_of_head hXhead
      have hX1 : normSlash (mergeChars b c) ≠ ['/'] := by rw [hXnorm]; exact hXne
      have hR : mergeChars a (mergeChars b c) =
          stripSlash a ++ (stripSlash (normSlash b) ++ normSlash c) := by
        rw [mergeChars_sub_ne ha hX1, hXnorm, hX]
      have hL : mergeChars (mergeChars a b) c =
          stripSlash (mergeChars a b) ++ normSlash c :=
        mergeChars_sub_ne (mergeChars_head b ha) hc1
      rw [hL, hR, mergeChars_sub_ne ha hb1,
        stripSlash_append (stripSlash a) (normSlash b) (normSlash_ne_nil b),
        List.append_assoc]

/-- Associativity of mergePath for a slash-headed base. -/
theorem mergePath_assoc (bp p q : String) (hbp : bp.data.head? = some '/') :
    mergePath (mergePath bp p) q = mergePath bp (mergePath p q) := by
  unfold mergePath
  exact congrArg String.mk (mergeChars_assoc bp.data p.data q.data hbp)

/-! ## Claim C2 -/

/-- C2 counterexample: with a custom error handler installed via onError, a
thrown HTTPException is routed to that handler like any other Error, so
handleError does not return the exception's pre-built response unchanged,
contrary to the claim. -/
theorem handleError_httpException_custom :
    handleError appCustom (.error (.httpException resp401)) c0 = .ok resp418 ∧
    handleError appCustom (.error (.httpException resp401)) c0 ≠ .ok resp401 :=
  ⟨rfl, by decide⟩

/-- C2 (amended): handleError forwards every Error — HTTPException included —
to the configured error handler; only the default error handler returns an
HTTPException's pre-built response unchanged, yielding a plain-text 500 for
any other Error; a non-Error thrown value is rethrown by handleError and
propagates out of both dispatch paths to the caller. -/
theorem handleError_spec (a : AppRef) (e : Err) (r : Response) (m : String)
    (v : Nat) (c : Ctx) :
    handleError a (.error e) c = .ok (a.eh.run e c) ∧
    ErrorHandlerSlot.run .dflt (.httpException r) c = r ∧
    ErrorHandlerSlot.run .dflt (.plain m) c = textResponse "Internal Server Error" 500 ∧
    handleError a (.nonError v) c = .error (.nonError v) ∧
    fastDispatch a (.base fun c2 _ => .error (.nonError v, c2)) c = .error (.nonError v) ∧
    composedDispatch a [.base fun c2 _ => .error (.nonError v, c2), hNone] c =
      .error (.nonError v) :=
  ⟨rfl, rfl, rfl, rfl, rfl, rfl⟩

/-! ## Claim C3 -/

/-- C3: a HEAD dispatch recursively dispatches the same request, execution
context and environment bindings as GET, and its outcome is the GET outcome
with status and headers kept and the body emptied (a propagated non-Error
throw propagates unchanged). -/
theorem dispatch_head (a : AppRef) (matcher : String → String → List H)
    (req : Req) (env : Nat) (ectx : Option Nat) :
    dispatch a matcher req env ectx "HEAD" =
      (dispatch a matcher req env ectx "GET").map fun r => ⟨r.status, r.headers, none⟩ := by
  unfold dispatch
  rw [if_pos rfl, if_neg (by decide)]

/-! ## Claim C9 -/

/-- A handler that throws a plain Error, used to observe the error handler in
effect. -/
def hBoom : H := .base fun c _ => .error (.error (.plain "boom"), c)

/-- C9: the application returned by basePath — for any parent, in particular
one with custom handlers installed via onError and notFound — has its error
and not-found slots reset to the built-in defaults while inheriting the
parent's path extractor, so dispatching through the derivative answers a
routing miss with the default 404 and a handler fault with the default
500. -/
theorem basePath_resets_handlers (a : AppRef) (p : String) (feh : ErrHandler)
    (fnfh : NFHandler) (req : Req) (env : Nat) (ectx : Option Nat) :
    (basePath { a with eh := .custom feh, nfh := .custom fnfh } p).eh = .dflt ∧
    (basePath { a with eh := .custom feh, nfh := .custom fnfh } p).nfh = .dflt ∧
    (basePath { a with eh := .custom feh, nfh := .custom fnfh } p).getPathF = a.getPathF ∧
    dispatch (basePath { a with eh := .custom feh, nfh := .custom fnfh } p)
      (fun _ _ => []) req env ectx "GET" = .ok resp404 ∧
    dispatch (basePath { a with eh := .custom feh, nfh := .custom fnfh } p)
      (fun _ _ => [hBoom]) req env ectx "GET" = .ok resp500 :=
  ⟨rfl, rfl, rfl, by unfold dispatch; rw [if_neg (by decide)]; rfl,
    by unfold dispatch; rw [if_neg (by decide)]; rfl⟩

/-! ## Claim C10 -/

/-- C10: with strict set to false the constructor installs the non-strict
extractor regardless of any user-supplied getPath; a custom getPath is
honored only under strict (the default); under strict with no getPath the
strict default extractor is used.  The final conjunct ties the choice to
the constructed application. -/
theorem constructor_getPath_spec (g : GetPathF) :
    mkGetPath ⟨some false, some g⟩ = getPathNoStrict ∧
    mkGetPath ⟨some false, none⟩ = getPathNoStrict ∧
    mkGetPath ⟨some true, some g⟩ = g ∧
    mkGetPath ⟨none, some g⟩ = g ∧
    mkGetPath ⟨some true, none⟩ = getPathDefault ∧
    mkGetPath ⟨none, none⟩ = getPathDefault ∧
    (mkAppRef ⟨some false, some g⟩).getPathF = getPathNoStrict :=
  ⟨rfl, rfl, rfl, rfl, rfl, rfl, rfl⟩

/-! ## Claim C1 -/

/-- The success shapes under which the single-handler fast path and the
composed path coincide: a throw; a returned response on a context that is
either unfinalized or already finalized with that same response; or no
returned response on a finalized context. -/
def goodRun : Except ThrownC (Option Response × Ctx) → Prop
  | .ok (some r, c') => c'.res = none ∨ c'.res = some r
  | .ok (none, c') => c'.res.isSome = true
  | .error _ => True

/-- C1 counterexample: for a single matched handler that succeeds without
producing a response and without finalizing the context, the fast path
answers with the default 404 while the composed-chain path raises the
unfinalized-context Error and answers with the default 500 — the two paths
are not observably equivalent as the claim states. -/
theorem fastPath_composed_differ :
    fastDispatch appDflt hNone c0 = .ok resp404 ∧
    composedDispatch appDflt [hNone] c0 = .ok resp500 ∧
    fastDispatch appDflt hNone c0 ≠ composedDispatch appDflt [hNone] c0 :=
  ⟨rfl, rfl, by decide⟩

/-- C1 (amended): for a single matched handler, provided the handler reacts
identically to the fast path's trivial next and the composed path's
terminal next, and its success leaves the context in a good shape (a
returned response not contradicted by a finalized context, or no response
with the context finalized), the fast path and the composed-chain path
produce the same observable outcome — in particular the error handler is
invoked on a thrown Error and a non-Error throw propagates identically. -/
theorem fastPath_composed_agree (a : AppRef) (h : H) (c : Ctx)
    (hsame : h.sem c (fastNext a) = h.sem c (termNext a))
    (hgood : goodRun (h.sem c (fastNext a))) :
    fastDispatch a h c = composedDispatch a [h] c := by
  unfold fastDispatch composedDispatch
  simp only [List.map]
  show _ = (match runStep a.eh.run h.sem (fun c2 => termNext a c2) c with
    | .ok c' =>
      match c'.res with
      | some r => .ok r
      | none => handleError a (.error (.plain unfinalizedMsg)) c'
    | .error (t, c') => handleError a t c')
  have hnext : (fun c2 => termNext a c2) = termNext a := rfl
  rw [hnext]
  unfold runStep
  rw [← hsame]
  cases hres : h.sem c (fastNext a) with
  | error tc =>
    obtain ⟨t, c'⟩ := tc
    cases t with
    | error e => simp [handleError, Ctx.setRes]
    | nonError v => simp [handleError]
  | ok rc =>
    obtain ⟨r?, c'⟩ := rc
    rw [hres] at hgood
    cases r? with
    | none =>
      simp only [goodRun] at hgood
      rcases hr : c'.res with _ | r
      · rw [hr] at hgood; exact absurd hgood (by decide)
      · simp [hr]
    | some r =>
      rcases hgood with hg | hg
      · simp [hg, Ctx.setRes]
      · simp [hg]

/-- C1 witness: a handler that simply returns a response runs identically
through both paths. -/
theorem fastPath_composed_agree_w :
    fastDispatch appDflt hHi c0 = composedDispatch appDflt [hHi] c0 :=
  fastPath_composed_agree appDflt hHi c0 rfl (Or.inl rfl)

/-! ## Claim C6 -/

/-- C6 counterexample: a composed chain that completes unfinalized does not
surface a distinct fatal failure — the unfinalized-context Error is caught
by dispatch's own catch and converted by the configured (here custom) error
handler exactly as a handler's own Error would be, and dispatch returns
that handler's response. -/
theorem unfinalized_converted :
    composedDispatch appCustom [hNone, hNone] c0 = .ok resp418 ∧
    handleError appCustom (.error (.plain unfinalizedMsg)) c0 = .ok resp418 ∧
    composedDispatch appCustom [hBoom, hNone] c0 = .ok resp418 :=
  ⟨rfl, rfl, rfl⟩

/-- C6 (amended): on the composed path, when the chain completes, a finalized
context's response is returned; an unfinalized context makes dispatch throw
an Error whose message states that the pipeline completed without producing
or awaiting a response, and that Error is caught by the surrounding catch
and converted by the configured error handler, like an ordinary handler
fault. -/
theorem composed_unfinalized_spec (a : AppRef) (hs : List H) (c c' : Ctx)
    (hrun : compose a.eh.run (some a.nfh.run) none (hs.map H.sem) c = .ok c') :
    composedDispatch a hs c =
      match c'.res with
      | some r => .ok r
      | none => .ok (a.eh.run (.plain unfinalizedMsg) c') := by
  unfold composedDispatch
  rw [hrun]
  rcases hr : c'.res with _ | r <;> simp [hr, handleError]

/-- C6 witness: two pass-through handlers leave the context unfinalized and
the default error handler converts the unfinalized-context Error to the
built-in 500. -/
theorem composed_unfinalized_spec_w :
    composedDispatch appDflt [hNone, hNone] c0 = .ok resp500 :=
  composed_unfinalized_spec appDflt [hNone, hNone] c0 c0 rfl

/-! ## Claim C4 -/

/-- The route table produced by route(): the old table followed by the
transformed sub-routes in order. -/
theorem route_routes (a : AppRef) (p : String) (subEh : ErrorHandlerSlot)
    (subRoutes : List RouterRoute) (w : World) :
    (route a w p subEh subRoutes).routes =
      w.routes ++ subRoutes.map (fun r =>
        ⟨strUpper r.method, mergePath (mergePath a._basePath p) r.path,
          graftHandler subEh r.handler⟩) := by
  unfold route
  induction subRoutes generalizing w with
  | nil => simp
  | cons r rs ih =>
    simp only [List.foldl, List.map, List.cons_append]
    rw [ih]
    simp [addRoute, basePath, List.append_assoc]

/-- C4: route() copies each sub-route's handler unchanged when the grafted
application still has the default error handler; with a custom error
handler every copied handler is the composed wrapper carrying the original
handler as its back-reference, and an Error thrown by the original handler
is answered by the sub-application's error handler, whose response becomes
the wrapper's result instead of an exception that would reach the parent's
chain. -/
theorem route_graft_spec (a : AppRef) (w : World) (p : String)
    (subRoutes : List RouterRoute) (f : ErrHandler) (orig : Handler)
    (next : NextF) (c c' : Ctx) (e : Err) :
    (route a w p .dflt subRoutes).routes =
      w.routes ++ subRoutes.map (fun r =>
        ⟨strUpper r.method, mergePath (mergePath a._basePath p) r.path, r.handler⟩) ∧
    (route a w p (.custom f) subRoutes).routes =
      w.routes ++ subRoutes.map (fun r =>
        ⟨strUpper r.method, mergePath (mergePath a._basePath p) r.path,
          H.composed r.handler (wrapSem f r.handler.sem)⟩) ∧
    (orig c next = .error (.error e, c') →
      wrapSem f orig c next = .ok (some (f e c'), c'.setRes (f e c'))) := by
  refine ⟨route_routes a p .dflt subRoutes w, route_routes a p (.custom f) subRoutes w, ?_⟩
  intro horig
  simp [wrapSem, compose, runStep, horig, Ctx.setRes]

/-- C4 witness: a concrete throwing handler wrapped with the custom 418 error
handler yields the 418 response from inside the wrapper. -/
def origBoom : Handler := fun c _ => .error (.error (.plain "boom"), c)

/-- The no-op continuation used to exercise the wrapper. -/
def idNext : NextF := fun c => .ok c

/-- C4 witness: the wrapper built for a custom error handler answers a thrown
Error with that handler's response. -/
theorem route_graft_spec_w :
    wrapSem custom418 origBoom c0 idNext = .ok (some resp418, c0.setRes resp418) :=
  (route_graft_spec appDflt ⟨[], []⟩ "/api" [] custom418 origBoom idNext c0 c0
    (.plain "boom")).2.2 rfl

/-! ## Claim C5 -/

/-- C5: mount() appends exactly one catch-all route — method ALL, the mount
path plus a wildcard merged onto the base path — whose middleware rewrites
the request path by dropping the merged prefix (falling back to "/" when
the remainder is empty) and re-appending the query string, passes the
default or mapped options to the foreign handler, returns a truthy foreign
result as its response, and on a falsy result invokes next() so that
later-registered routes at the same path still run. -/
theorem mount_spec (a : AppRef) (w : World) (p : String)
    (optH : Option (Ctx → MountOpts)) (foreign : ForeignHandler)
    (c : Ctx) (next : NextF) :
    (mount a w p optH foreign).routes =
      w.routes ++ [⟨"ALL", mergePath a._basePath (mergePath p "*"),
        .base (mountHandlerSem a._basePath p optH foreign)⟩] ∧
    mountHandlerSem a._basePath p optH foreign c next =
      (let mergedPath := mergePath a._basePath p
       let stripped := strDrop c.reqPath (if mergedPath = "/" then 0 else strLen mergedPath)
       let newPath := (if stripped = "" then "/" else stripped) ++ c.reqQuery
       let opts := match optH with
         | some f => (f c).toList
         | none => [some c.env, c.ectx]
       match foreign newPath opts with
       | some r => .ok (some r, c)
       | none => (next c).map fun c2 => (none, c2)) :=
  ⟨rfl, rfl⟩

/-! ## Claim C7 -/

/-- C7: registering method m at path q on the basePath(p) derivative produces
the same shared-table state as registering m at merge(p, q) directly on the
original application: the same single record — same method, full path and
handler — is appended to the same routes list and forwarded to the same
router (the derivative shares both by reference, modelled as the shared
World), whenever the original's base path is slash-headed, which holds for
every reachable application. -/
theorem basePath_register_assoc (a : AppRef) (w : World) (p q m : String) (h : H)
    (ha : a._basePath.data.head? = some '/') :
    addRoute (basePath a p) w m q h = addRoute a w m (mergePath p q) h := by
  unfold addRoute
  have hbp : (basePath a p)._basePath = mergePath a._basePath p := rfl
  rw [hbp, mergePath_assoc a._basePath p q ha]

/-- C7 witness: registering "/users" on the "/api" derivative of a fresh
application equals registering "/api/users" directly. -/
theorem basePath_register_assoc_w :
    (appDflt._basePath.data.head? = some '/') ∧
    addRoute (basePath appDflt "/api") ⟨[], []⟩ "get" "/users" hHi =
      addRoute appDflt ⟨[], []⟩ "get" (mergePath "/api" "/users") hHi :=
  ⟨rfl, basePath_register_assoc appDflt ⟨[], []⟩ "/api" "/users" "get" hHi rfl⟩

/-! ## Claim C8 -/

/-- A fold whose every step only appends to the routes table only appends to
the routes table. -/
theorem routes_extends_foldl {α σ : Type} (proj : σ → World) (step : σ → α → σ)
    (hstep : ∀ s x, ∃ tl, (proj (step s x)).routes = (proj s).routes ++ tl) :
    ∀ (l : List α) (s : σ), ∃ tl, (proj (l.foldl step s)).routes = (proj s).routes ++ tl := by
  intro l
  induction l with
  | nil => intro s; exact ⟨[], by simp⟩
  | cons x xs ih =>
    intro s
    obtain ⟨t1, h1⟩ := hstep s x
    obtain ⟨t2, h2⟩ := ih (step s x)
    exact ⟨t1 ++ t2, by rw [List.foldl_cons, h2, h1, List.append_assoc]⟩

/-- addRoute only appends to the routes table. -/
theorem addRoute_extends (a : AppRef) (w : World) (m p : String) (h : H) :
    ∃ tl, (addRoute a w m p h).routes = w.routes ++ tl :=
  ⟨_, rfl⟩

/-- Table extension is transitive. -/
theorem extends_trans {r1 r2 r3 : List RouterRoute}
    (h1 : ∃ tl, r2 = r1 ++ tl) (h2 : ∃ tl, r3 = r2 ++ tl) :
    ∃ tl, r3 = r1 ++ tl := by
  obtain ⟨t1, e1⟩ := h1
  obtain ⟨t2, e2⟩ := h2
  exact ⟨t1 ++ t2, by rw [e2, e1, List.append_assoc]⟩

/-- A World-valued fold of addRoute steps only appends to the routes table. -/
theorem addRoute_foldl_extends {α : Type} (step : World → α → World)
    (hstep : ∀ w x, ∃ tl, (step w x).routes = w.routes ++ tl)
    (l : List α) (w : World) : ∃ tl, (l.foldl step w).routes = w.routes ++ tl :=
  routes_extends_foldl id step hstep l w

/-- The on() registration loops only append to the routes table. -/
theorem onRegister_extends (a : AppRef) (w : World) (ms ps : List String)
    (hs : List H) : ∃ tl, (onRegister a w ms ps hs).2.routes = w.routes ++ tl := by
  unfold onRegister
  refine routes_extends_foldl Prod.snd _ ?_ ps (a, w)
  intro st p
  exact addRoute_foldl_extends _
    (fun w' m => addRoute_foldl_extends _ (fun w2 h => addRoute_extends _ w2 _ _ h) hs w')
    ms st.2

/-- C8: addRoute uppercases the method, merges the base path into the full
path, appends exactly one record to the end of the table and forwards
(method, fullPath, [handler, record]) to the router; and no public
operation of the application removes or reorders existing table entries —
every operation's resulting table extends the previous table on the
right. -/
theorem routeTable_appendOnly (a : AppRef) (w : World) (m p : String) (h : H)
    (op : AppOp) :
    addRoute a w m p h =
      ⟨w.routes ++ [⟨strUpper m, mergePath a._basePath p, h⟩],
       w.routerLog ++ [⟨strUpper m, mergePath a._basePath p,
         (h, ⟨strUpper m, mergePath a._basePath p, h⟩)⟩]⟩ ∧
    ∃ tl, (applyOp a w op).2.routes = w.routes ++ tl := by
  refine ⟨rfl, ?_⟩
  cases op with
  | addRouteOp m1 p1 h1 => exact addRoute_extends a w m1 p1 h1
  | methodOp m1 arg1 rest =>
    have hfold : ∀ (a1 : AppRef) (w1 : World), ∃ tl,
        (rest.foldl (fun (w' : World) (x : Sum String H) =>
          match x with
          | .inl _ => w'
          | .inr h1 => addRoute a1 w' m1 a1.pathStash h1) w1).routes = w1.routes ++ tl := by
      intro a1 w1
      refine addRoute_foldl_extends _ ?_ rest w1
      intro w' x
      cases x with
      | inl s => exact ⟨[], by simp⟩
      | inr h1 => exact addRoute_extends _ w' _ _ h1
    cases arg1 with
    | inl s => exact hfold { a with pathStash := s } w
    | inr h1 =>
      exact extends_trans (addRoute_extends a w m1 a.pathStash h1)
        (hfold a (addRoute a w m1 a.pathStash h1))
  | onOp marg parg hs =>
    cases marg with
    | inl m0 =>
      show ∃ tl, (if m0 = "" then (a, w)
        else onRegister a w [m0] (flatArg parg) hs).2.routes = w.routes ++ tl
      split
      · exact ⟨[], by simp⟩
      · exact onRegister_extends a w [m0] (flatArg parg) hs
    | inr ms => exact onRegister_extends a w ms (flatArg parg) hs
  | useOp arg1 rest =>
    cases arg1 with
    | inl p1 =>
      exact addRoute_foldl_extends _ (fun w' h1 => addRoute_extends _ w' _ _ h1) rest w
    | inr h1 =>
      exact addRoute_foldl_extends _ (fun w' h2 => addRoute_extends _ w' _ _ h2) (h1 :: rest) w
  | routeOp p1 subEh subRoutes =>
    exact addRoute_foldl_extends _ (fun w' r => addRoute_extends _ w' _ _ _) subRoutes w
  | basePathOp p1 => exact ⟨[], by simp [applyOp]⟩
  | onErrorOp f => exact ⟨[], by simp [applyOp]⟩
  | notFoundOp f => exact ⟨[], by simp [applyOp]⟩
  | mountOp p1 optH foreign => exact addRoute_extends _ _ _ _ _
  | fetchOp => exact ⟨[], by simp [applyOp]⟩

end HonoBase

